import Mathlib

/- Shallow embedding of the query-parameter-driven filtering, pagination,
   sorting and audit pipeline of the Django boilerplate repository
   (apps/common/pagination.py, apps/common/filters.py,
   apps/common/audit/services.py, apps/common/audit/constants.py,
   apps/common/audit/models.py), together with proofs of the specified
   properties of those functions. -/

namespace Boiler

/-! ## Python primitives: decimal integers, `str.strip`, `int(...)`

These model the CPython behaviour that the embedded functions rely on:
`str(int)` prints a decimal numeral, `int(str)` strips whitespace, accepts
an optional sign and digits with single underscores strictly between
digits, and fails (`ValueError`) on anything else. -/

def isDig (c : Char) : Bool := 48 ≤ c.toNat && c.toNat ≤ 57

def digitVal (c : Char) : Nat := c.toNat - 48

def digitChar (n : Nat) : Char :=
  match n with
  | 0 => '0' | 1 => '1' | 2 => '2' | 3 => '3' | 4 => '4'
  | 5 => '5' | 6 => '6' | 7 => '7' | 8 => '8' | _ => '9'

def natDigits (n : Nat) : List Char :=
  if _h : n < 10 then [digitChar n]
  else natDigits (n / 10) ++ [digitChar (n % 10)]
decreasing_by exact Nat.div_lt_self (by omega) (by omega)

/-- Python `str` of a non-negative integer. -/
def pyStrNat (n : Nat) : String := String.mk (natDigits n)

/-- Python `str` of an integer. -/
def pyStrInt (n : Int) : String :=
  if n < 0 then "-" ++ pyStrNat (-n).toNat else pyStrNat n.toNat

def readDigits (l : List Char) : Nat := l.foldl (fun a c => 10 * a + digitVal c) 0

/-- The whitespace characters stripped by Python `str.strip()`. -/
def pyIsSpace (c : Char) : Bool :=
  c = ' ' || c = '\t' || c = '\n' || c = '\r' || c = '\x0b' || c = '\x0c'

def stripLeft (l : List Char) : List Char :=
  match l with
  | [] => []
  | c :: r => if pyIsSpace c then stripLeft r else c :: r

/-- Python `str.strip()` on a character list. -/
def pyStrip (l : List Char) : List Char :=
  (stripLeft ((stripLeft l).reverse)).reverse

/-- Grammar `digit (underscore? digit)*` tail check: every character is a digit,
except that a single underscore may stand between two digits. -/
def okDigitsU : List Char → Bool
  | [] => true
  | [c] => isDig c
  | c :: d :: rest => (if c = '_' then isDig d else isDig c) && okDigitsU (d :: rest)

def pyIntBody (l : List Char) : Bool :=
  match l with
  | [] => false
  | c :: _ => isDig c && okDigitsU l

/-- Python `int(s)` on a string: `some n` on success, `none` when Python
would raise `ValueError`/`TypeError`. -/
def pyToInt (s : String) : Option Int :=
  let l := pyStrip s.toList
  match l with
  | '+' :: rest =>
      if pyIntBody rest then some ((readDigits (rest.filter (fun c => c ≠ '_')) : Nat) : Int)
      else none
  | '-' :: rest =>
      if pyIntBody rest then some (-((readDigits (rest.filter (fun c => c ≠ '_')) : Nat) : Int))
      else none
  | l' =>
      if pyIntBody l' then some ((readDigits (l'.filter (fun c => c ≠ '_')) : Nat) : Int)
      else none

/-! ### Round-trip lemmas: `pyToInt (pyStrNat n) = some n` -/

theorem natDigits_ne_nil (n : Nat) : natDigits n ≠ [] := by
  rw [natDigits]
  split
  · simp
  · simp

theorem natDigits_all_dig (n : Nat) : ∀ c ∈ natDigits n, isDig c = true := by
  induction n using Nat.strong_induction_on with
  | _ n ih =>
    rw [natDigits]
    split
    · rename_i h
      intro c hc
      simp only [List.mem_singleton] at hc
      subst hc
      interval_cases n <;> decide
    · rename_i h
      intro c hc
      rw [List.mem_append] at hc
      rcases hc with hc | hc
      · exact ih (n / 10) (Nat.div_lt_self (by omega) (by omega)) c hc
      · simp only [List.mem_singleton] at hc
        subst hc
        have hm : n % 10 < 10 := Nat.mod_lt _ (by omega)
        interval_cases hmn : (n % 10) <;> simp_all <;> decide

theorem readDigits_append (l : List Char) (c : Char) :
    readDigits (l ++ [c]) = 10 * readDigits l + digitVal c := by
  simp [readDigits, List.foldl_append]

theorem digitVal_digitChar (m : Nat) (h : m < 10) : digitVal (digitChar m) = m := by
  interval_cases m <;> decide

theorem readDigits_natDigits (n : Nat) : readDigits (natDigits n) = n := by
  induction n using Nat.strong_induction_on with
  | _ n ih =>
    rw [natDigits]
    split
    · rename_i h
      simp [readDigits, digitVal_digitChar n h]
    · rename_i h
      rw [readDigits_append, ih (n / 10) (Nat.div_lt_self (by omega) (by omega)),
        digitVal_digitChar _ (Nat.mod_lt _ (by omega))]
      omega

theorem isDig_not_space (c : Char) (h : isDig c = true) : pyIsSpace c = false := by
  simp only [pyIsSpace, Bool.or_eq_false_iff, decide_eq_false_iff_not]
  refine ⟨⟨⟨⟨⟨?_, ?_⟩, ?_⟩, ?_⟩, ?_⟩, ?_⟩ <;> rintro rfl <;> simp [isDig] at h

theorem stripLeft_of_digits (l : List Char) (hl : ∀ c ∈ l, isDig c = true) :
    stripLeft l = l := by
  cases l with
  | nil => rfl
  | cons c r =>
    have := isDig_not_space c (hl c (by simp))
    simp [stripLeft, this]

theorem pyStrip_of_digits (l : List Char) (hl : ∀ c ∈ l, isDig c = true) :
    pyStrip l = l := by
  unfold pyStrip
  rw [stripLeft_of_digits l hl, stripLeft_of_digits l.reverse (by simpa using fun c h => hl c h),
    List.reverse_reverse]

theorem okDigitsU_of_digits (l : List Char) (hl : ∀ c ∈ l, isDig c = true) :
    okDigitsU l = true := by
  induction l with
  | nil => rfl
  | cons c r ih =>
    cases r with
    | nil => exact hl c (by simp)
    | cons d rest =>
      have hc := hl c (by simp)
      have hd := hl d (by simp)
      have hrest : okDigitsU (d :: rest) = true :=
        ih (fun x hx => hl x (List.mem_cons_of_mem c hx))
      rw [okDigitsU, hrest]
      by_cases hcu : c = '_' <;> simp [hcu, hc, hd]

theorem pyIntBody_of_digits (l : List Char) (hne : l ≠ []) (hl : ∀ c ∈ l, isDig c = true) :
    pyIntBody l = true := by
  cases l with
  | nil => exact absurd rfl hne
  | cons c r =>
    rw [pyIntBody]
    simp [hl c (by simp), okDigitsU_of_digits _ hl]

theorem filter_no_underscore (l : List Char) (hl : ∀ c ∈ l, isDig c = true) :
    l.filter (fun c => c ≠ '_') = l := by
  rw [List.filter_eq_self]
  intro c hc
  have := hl c hc
  simp only [ne_eq, decide_eq_true_eq]
  rintro rfl
  simp [isDig] at this

theorem pyToInt_digits (l : List Char) (hne : l ≠ []) (hdig : ∀ c ∈ l, isDig c = true) :
    pyToInt (String.mk l) = some ((readDigits l : Nat) : Int) := by
  have hstrip : pyStrip (String.mk l).toList = l := pyStrip_of_digits _ hdig
  unfold pyToInt
  simp only [hstrip]
  split
  · exfalso
    have : isDig '+' = true := hdig '+' (by simp)
    simp [isDig] at this
  · exfalso
    have : isDig '-' = true := hdig '-' (by simp)
    simp [isDig] at this
  · rw [if_pos (pyIntBody_of_digits _ hne hdig), filter_no_underscore _ hdig]

theorem pyToInt_pyStrNat (n : Nat) : pyToInt (pyStrNat n) = some (n : Int) := by
  rw [pyStrNat, pyToInt_digits _ (natDigits_ne_nil n) (natDigits_all_dig n),
    readDigits_natDigits]

theorem pyStrNat_ne_empty (n : Nat) : pyStrNat n ≠ "" := by
  rw [pyStrNat]
  intro h
  have h2 : natDigits n = [] := congrArg String.data h
  exact natDigits_ne_nil n h2

/-! ## QueryDict and Request

A Django `QueryDict` maps each query-string key to the ordered list of its
values.  `get` returns the last value of the key's list (MultiValueDict
semantics), `getlist` the whole list, and item assignment replaces the
key's values with a single value, leaving every other key untouched. -/

def QueryDict := List (String × List String)

def qdLookup (qd : QueryDict) (k : String) : Option (List String) :=
  match qd with
  | [] => none
  | (k', vs) :: rest => if k' = k then some vs else qdLookup rest k

def qdGet (qd : QueryDict) (k : String) : Option String :=
  match qdLookup qd k with
  | some vs => vs.getLast?
  | none => none

def qdGetD (qd : QueryDict) (k : String) (d : String) : String :=
  match qdGet qd k with
  | some v => v
  | none => d

def qdGetList (qd : QueryDict) (k : String) : List String :=
  match qdLookup qd k with
  | some vs => vs
  | none => []

def qdSet (qd : QueryDict) (k v : String) : QueryDict :=
  match qd with
  | [] => [(k, [v])]
  | (k', vs) :: rest => if k' = k then (k, [v]) :: rest else (k', vs) :: qdSet rest k v

/-- Django `QueryDict.urlencode`: one `k=v` pair per value, joined with `&`
(percent-escaping of the characters themselves is left to the transport
layer and is irrelevant to the stated properties). -/
def urlencode (qd : QueryDict) : String :=
  String.intercalate "&" ((qd.map (fun p => p.2.map (fun v => p.1 ++ "=" ++ v))).flatten)

theorem qdLookup_qdSet_self (qd : QueryDict) (k v : String) :
    qdLookup (qdSet qd k v) k = some [v] := by
  induction qd with
  | nil => simp [qdSet, qdLookup]
  | cons p rest ih =>
    rcases p with ⟨k', vs⟩
    by_cases h : k' = k
    · simp [qdSet, h, qdLookup]
    · simpa [qdSet, h, qdLookup] using ih

theorem qdLookup_qdSet_ne (qd : QueryDict) (k v k2 : String) (h : k2 ≠ k) :
    qdLookup (qdSet qd k v) k2 = qdLookup qd k2 := by
  induction qd with
  | nil => simp [qdSet, qdLookup, Ne.symm h]
  | cons p rest ih =>
    rcases p with ⟨k', vs⟩
    by_cases h' : k' = k
    · subst h'
      simp [qdSet, qdLookup, Ne.symm h]
    · by_cases h2 : k' = k2
      · subst h2
        simp [qdSet, h', qdLookup]
      · simpa [qdSet, h', qdLookup, h2] using ih

/-- A request as the embedded functions see it: its query parameters, its
path, and the resolved URL base (`settings.BASE_URL`, or the
absolute-URI / bare-path fallbacks; the embedding keeps the resolved
result only, as the claims do not depend on the resolution order). -/
structure Request where
  params : QueryDict
  path : String
  base : String

/-! ## `get_pagination_params` (apps/common/pagination.py) -/

structure PageParams where
  should_paginate : Bool
  page : Int
  limit : Int
deriving DecidableEq, Repr

/-- Python `int(page_param) if page_param else 1` then `max(1, page)`, with
`ValueError`/`TypeError` falling back to 1. -/
def parsePageValue (p : Option String) : Int :=
  match p with
  | none => 1
  | some s =>
    if s = "" then 1
    else
      match pyToInt s with
      | some n => max 1 n
      | none => 1

/-- Python `int(limit_param) if limit_param else 10` then `max(1, min(limit, 100))`,
with `ValueError`/`TypeError` falling back to 10. -/
def parseLimitValue (p : Option String) : Int :=
  match p with
  | none => 10
  | some s =>
    if s = "" then 10
    else
      match pyToInt s with
      | some n => max 1 (min n 100)
      | none => 10

def get_pagination_params (req : Request) : PageParams :=
  let pageParam := qdGet req.params "page"
  let limitParam := qdGet req.params "limit"
  if pageParam = none && limitParam = none then
    { should_paginate := false, page := 1, limit := 10 }
  else
    { should_paginate := true,
      page := parsePageValue pageParam,
      limit := parseLimitValue limitParam }

theorem parsePageValue_ge_one (p : Option String) : 1 ≤ parsePageValue p := by
  rcases p with _ | s
  · simp [parsePageValue]
  · rw [parsePageValue]
    split
    · omega
    · rcases h : pyToInt s with _ | n
      · simp [h]
      · simp only [h]
        exact le_max_left 1 n

theorem parseLimitValue_bounds (p : Option String) :
    1 ≤ parseLimitValue p ∧ parseLimitValue p ≤ 100 := by
  rcases p with _ | s
  · simp [parseLimitValue]
  · rw [parseLimitValue]
    split
    · omega
    · rcases h : pyToInt s with _ | n
      · simp [h]
      · simp only [h]
        refine ⟨le_max_left 1 (min n 100), max_le (by norm_num) ?_⟩
        exact le_trans (min_le_right n 100) (by norm_num)

/-! ## `apply_manual_pagination` (apps/common/pagination.py) -/

structure PageResult (α : Type) where
  data : List α
  total : Nat
  next : Option String
  previous : Option String
deriving DecidableEq, Repr

/-- Django `Paginator.num_pages` with `orphans = 0` and
`allow_empty_first_page = True`: `ceil(max(1, count) / per_page)`. -/
def numPages (count per_page : Nat) : Nat := (max 1 count + per_page - 1) / per_page

/-- Django `Paginator.get_page` on an `int` argument: a number below 1 and a
number past the last page both fall back to the last page. -/
def getPageNumber (page : Int) (np : Nat) : Nat :=
  if page < 1 then np
  else if (np : Int) < page then np
  else page.toNat

/-- Django `Page.object_list` of 1-based page `number` with page size `per_page`. -/
def pageSlice {α : Type} (l : List α) (number per_page : Nat) : List α :=
  (l.drop ((number - 1) * per_page)).take per_page

/-- The query dictionary used by `build_pagination_url`: a copy of the
request's parameters with `page` set to `page_number` and `limit` set to
the effective page size, in that order. -/
def paginationQueryDict (req : Request) (limit : Int) (page_number : Nat) : QueryDict :=
  qdSet (qdSet req.params "page" (pyStrNat page_number)) "limit" (pyStrInt limit)

def build_pagination_url (req : Request) (limit : Int) (page_number : Nat) : String :=
  req.base ++ req.path ++ "?" ++ urlencode (paginationQueryDict req limit page_number)

def apply_manual_pagination {α : Type} (qs : List α) (req : Request) : PageResult α :=
  let pp := get_pagination_params req
  if pp.should_paginate = false then
    { data := qs, total := qs.length, next := none, previous := none }
  else
    let limit := pp.limit.toNat
    let np := numPages qs.length limit
    let number := getPageNumber pp.page np
    { data := pageSlice qs number limit,
      total := qs.length,
      next :=
        if number < np then some (build_pagination_url req pp.limit (number + 1)) else none,
      previous :=
        if 1 < number then some (build_pagination_url req pp.limit (number - 1)) else none }

theorem pyToInt_empty : pyToInt "" = none := rfl

/-- C1: the `total` field of the paginated result is always the size of the
full (pre-pagination) collection, whether or not pagination is applied,
for every value of the `page` and `limit` parameters. -/
theorem pagination_total_is_filtered_count {α : Type} (qs : List α) (req : Request) :
    (apply_manual_pagination qs req).total = qs.length := by
  rw [apply_manual_pagination]
  split <;> rfl

/-- C4: when neither `page` nor `limit` is present, the parser disables
pagination and the paginator returns the whole collection with
`total` the collection size and `next` = `previous` = null. -/
theorem no_params_returns_everything {α : Type} (qs : List α) (req : Request)
    (hp : qdGet req.params "page" = none) (hl : qdGet req.params "limit" = none) :
    get_pagination_params req = { should_paginate := false, page := 1, limit := 10 } ∧
    apply_manual_pagination qs req =
      { data := qs, total := qs.length, next := none, previous := none } := by
  have h1 : get_pagination_params req = { should_paginate := false, page := 1, limit := 10 } := by
    rw [get_pagination_params]
    simp [hp, hl]
  refine ⟨h1, ?_⟩
  rw [apply_manual_pagination]
  simp [h1]

/-- C4 witness: a request with no query parameters at all. -/
theorem no_params_returns_everything_witness :
    get_pagination_params ⟨[], "/items", "http://api"⟩ =
      { should_paginate := false, page := 1, limit := 10 } ∧
    apply_manual_pagination [0, 1, 2] ⟨[], "/items", "http://api"⟩ =
      { data := [0, 1, 2], total := 3, next := none, previous := none } :=
  no_params_returns_everything [0, 1, 2] ⟨[], "/items", "http://api"⟩ rfl rfl

/-- C3: whenever at least one of `page`/`limit` is present, the parsed page
is ≥ 1 and the parsed limit is in [1, 100]; a non-numeric page yields 1, a
non-numeric limit yields 10, a page below 1 is clamped to 1, and a limit
below 1 (resp. above 100) is clamped to 1 (resp. 100). -/
theorem get_pagination_params_clamps (req : Request)
    (h : qdGet req.params "page" ≠ none ∨ qdGet req.params "limit" ≠ none) :
    (get_pagination_params req).should_paginate = true ∧
    1 ≤ (get_pagination_params req).page ∧
    1 ≤ (get_pagination_params req).limit ∧ (get_pagination_params req).limit ≤ 100 ∧
    (∀ s, qdGet req.params "page" = some s → pyToInt s = none →
      (get_pagination_params req).page = 1) ∧
    (∀ s, qdGet req.params "limit" = some s → pyToInt s = none →
      (get_pagination_params req).limit = 10) ∧
    (∀ s n, qdGet req.params "page" = some s → pyToInt s = some n → n < 1 →
      (get_pagination_params req).page = 1) ∧
    (∀ s n, qdGet req.params "limit" = some s → pyToInt s = some n → n < 1 →
      (get_pagination_params req).limit = 1) ∧
    (∀ s n, qdGet req.params "limit" = some s → pyToInt s = some n → 100 < n →
      (get_pagination_params req).limit = 100) := by
  have hcond : get_pagination_params req =
      { should_paginate := true,
        page := parsePageValue (qdGet req.params "page"),
        limit := parseLimitValue (qdGet req.params "limit") } := by
    rw [get_pagination_params]
    rcases h with h | h <;> simp [h]
  rw [hcond]
  refine ⟨rfl, parsePageValue_ge_one _, (parseLimitValue_bounds _).1,
    (parseLimitValue_bounds _).2, ?_, ?_, ?_, ?_, ?_⟩
  · intro s hs hn
    rw [hs, parsePageValue]
    split
    · rfl
    · rw [hn]
  · intro s hs hn
    rw [hs, parseLimitValue]
    split
    · rfl
    · rw [hn]
  · intro s n hs hn hlt
    have hne : s ≠ "" := by
      rintro rfl
      rw [pyToInt_empty] at hn
      exact Option.noConfusion hn
    rw [hs, parsePageValue, if_neg hne, hn]
    exact max_eq_left (by omega)
  · intro s n hs hn hlt
    have hne : s ≠ "" := by
      rintro rfl
      rw [pyToInt_empty] at hn
      exact Option.noConfusion hn
    rw [hs, parseLimitValue, if_neg hne, hn]
    show max 1 (min n 100) = 1
    rw [min_eq_left (by omega : n ≤ 100)]
    exact max_eq_left (by omega)
  · intro s n hs hn hlt
    have hne : s ≠ "" := by
      rintro rfl
      rw [pyToInt_empty] at hn
      exact Option.noConfusion hn
    rw [hs, parseLimitValue, if_neg hne, hn]
    show max 1 (min n 100) = 100
    rw [min_eq_right (by omega : 100 ≤ n)]
    exact max_eq_right (by omega)

/-- C3 witness: `page=abc&limit=999` parses to page 1 and limit 100. -/
theorem get_pagination_params_clamps_witness :
    (get_pagination_params ⟨[("page", ["abc"]), ("limit", ["999"])], "/u", ""⟩).page = 1 ∧
    (get_pagination_params ⟨[("page", ["abc"]), ("limit", ["999"])], "/u", ""⟩).limit = 100 := by
  have h := get_pagination_params_clamps ⟨[("page", ["abc"]), ("limit", ["999"])], "/u", ""⟩
    (Or.inl (by decide))
  exact ⟨h.2.2.2.2.1 "abc" rfl (by decide),
    h.2.2.2.2.2.2.2.2 "999" 999 rfl (by decide) (by decide)⟩

/-- C9: a `page` or `limit` parameter that is present with a blank value
still enables pagination; the blank value falls back to its default
(page 1, limit 10). -/
theorem blank_param_counts_as_present (req : Request) :
    (qdGet req.params "page" = some "" →
      (get_pagination_params req).should_paginate = true ∧
      (get_pagination_params req).page = 1) ∧
    (qdGet req.params "limit" = some "" →
      (get_pagination_params req).should_paginate = true ∧
      (get_pagination_params req).limit = 10) := by
  constructor
  · intro hp
    have hcond : get_pagination_params req =
        { should_paginate := true,
          page := parsePageValue (qdGet req.params "page"),
          limit := parseLimitValue (qdGet req.params "limit") } := by
      rw [get_pagination_params]
      simp [hp]
    rw [hcond, hp]
    exact ⟨rfl, rfl⟩
  · intro hl
    have hcond : get_pagination_params req =
        { should_paginate := true,
          page := parsePageValue (qdGet req.params "page"),
          limit := parseLimitValue (qdGet req.params "limit") } := by
      rw [get_pagination_params]
      simp [hl]
    rw [hcond, hl]
    exact ⟨rfl, rfl⟩

theorem get_pagination_params_page_ge_one (req : Request) :
    1 ≤ (get_pagination_params req).page := by
  rw [get_pagination_params]
  split
  · show (1 : Int) ≤ 1
    omega
  · exact parsePageValue_ge_one _

theorem get_pagination_params_limit_bounds (req : Request) :
    1 ≤ (get_pagination_params req).limit ∧ (get_pagination_params req).limit ≤ 100 := by
  rw [get_pagination_params]
  split
  · refine ⟨?_, ?_⟩ <;> show _ ≤ (_ : Int) <;> norm_num
  · exact parseLimitValue_bounds _

theorem qdGet_paginationQueryDict_page (req : Request) (l : Int) (p : Nat) :
    qdGet (paginationQueryDict req l p) "page" = some (pyStrNat p) := by
  rw [qdGet, paginationQueryDict, qdLookup_qdSet_ne _ _ _ _ (by decide), qdLookup_qdSet_self]
  rfl

theorem qdGet_paginationQueryDict_limit (req : Request) (l : Int) (p : Nat) :
    qdGet (paginationQueryDict req l p) "limit" = some (pyStrInt l) := by
  rw [qdGet, paginationQueryDict, qdLookup_qdSet_self]
  rfl

theorem qdLookup_paginationQueryDict_other (req : Request) (l : Int) (p : Nat)
    (k : String) (h1 : k ≠ "page") (h2 : k ≠ "limit") :
    qdLookup (paginationQueryDict req l p) k = qdLookup req.params k := by
  rw [paginationQueryDict, qdLookup_qdSet_ne _ _ _ _ h2, qdLookup_qdSet_ne _ _ _ _ h1]

/-- The 1-based page number the paginator actually serves (after Django's
`get_page` clamping). -/
def effectivePageNumber {α : Type} (qs : List α) (req : Request) : Nat :=
  getPageNumber (get_pagination_params req).page
    (numPages qs.length (get_pagination_params req).limit.toNat)

/-- The paginator's page count for the request's effective limit. -/
def totalPages {α : Type} (qs : List α) (req : Request) : Nat :=
  numPages qs.length (get_pagination_params req).limit.toNat

/-- C2: `next` is produced exactly when a following page exists and
`previous` exactly when a preceding page exists, each as the base URL plus
the original query dictionary in which only `page` (set to the adjacent
page number) and `limit` (set to the effective page size) are overwritten:
every other key keeps its full original value list. -/
theorem pagination_urls_preserve_query_params {α : Type} (qs : List α) (req : Request) :
    ((apply_manual_pagination qs req).next =
      if (get_pagination_params req).should_paginate = true ∧
          effectivePageNumber qs req < totalPages qs req
      then some (build_pagination_url req (get_pagination_params req).limit
        (effectivePageNumber qs req + 1))
      else none) ∧
    ((apply_manual_pagination qs req).previous =
      if (get_pagination_params req).should_paginate = true ∧ 1 < effectivePageNumber qs req
      then some (build_pagination_url req (get_pagination_params req).limit
        (effectivePageNumber qs req - 1))
      else none) ∧
    (∀ pg k, k ≠ "page" → k ≠ "limit" →
      qdLookup (paginationQueryDict req (get_pagination_params req).limit pg) k =
        qdLookup req.params k) ∧
    (∀ pg, qdGet (paginationQueryDict req (get_pagination_params req).limit pg) "page" =
      some (pyStrNat pg)) ∧
    (∀ pg, qdGet (paginationQueryDict req (get_pagination_params req).limit pg) "limit" =
      some (pyStrInt (get_pagination_params req).limit)) ∧
    (∀ pg, build_pagination_url req (get_pagination_params req).limit pg =
      req.base ++ req.path ++ "?" ++
        urlencode (paginationQueryDict req (get_pagination_params req).limit pg)) := by
  refine ⟨?_, ?_, fun pg k h1 h2 => qdLookup_paginationQueryDict_other req _ pg k h1 h2,
    fun pg => qdGet_paginationQueryDict_page req _ pg,
    fun pg => qdGet_paginationQueryDict_limit req _ pg,
    fun pg => rfl⟩
  · rw [apply_manual_pagination]
    by_cases hsp : (get_pagination_params req).should_paginate = false
    · simp [hsp]
    · simp only [hsp, if_false]
      have hsp' : (get_pagination_params req).should_paginate = true := by
        revert hsp
        cases (get_pagination_params req).should_paginate <;> simp
      simp [hsp', effectivePageNumber, totalPages]
  · rw [apply_manual_pagination]
    by_cases hsp : (get_pagination_params req).should_paginate = false
    · simp [hsp]
    · simp only [hsp, if_false]
      have hsp' : (get_pagination_params req).should_paginate = true := by
        revert hsp
        cases (get_pagination_params req).should_paginate <;> simp
      simp [hsp', effectivePageNumber, totalPages]

/-- C2 witness: with `status` repeated twice, both values survive in the
rebuilt query dictionary of a pagination URL. -/
theorem pagination_urls_preserve_query_params_witness :
    qdLookup (paginationQueryDict
        ⟨[("status", ["active", "archived"]), ("page", ["2"]), ("limit", ["10"])], "/u", ""⟩
        (get_pagination_params
          ⟨[("status", ["active", "archived"]), ("page", ["2"]), ("limit", ["10"])], "/u", ""⟩).limit
        3) "status" =
      some ["active", "archived"] := by
  have h := pagination_urls_preserve_query_params ([] : List Nat)
    ⟨[("status", ["active", "archived"]), ("page", ["2"]), ("limit", ["10"])], "/u", ""⟩
  rw [h.2.2.1 3 "status" (by decide) (by decide)]
  rfl

/-- C5: when a next page exists, the next URL is built for the page after
the served one, the served page equals the requested page, and parsing the
next URL's query parameters back through the parameter parser yields
pagination enabled, the original page number plus one, and the original
effective limit. -/
theorem next_url_roundtrip {α : Type} (qs : List α) (req : Request)
    (h : (apply_manual_pagination qs req).next.isSome = true) :
    (apply_manual_pagination qs req).next =
      some (build_pagination_url req (get_pagination_params req).limit
        (effectivePageNumber qs req + 1)) ∧
    (effectivePageNumber qs req : Int) = (get_pagination_params req).page ∧
    get_pagination_params
      { params := paginationQueryDict req (get_pagination_params req).limit
          (effectivePageNumber qs req + 1),
        path := req.path, base := req.base } =
      { should_paginate := true,
        page := (get_pagination_params req).page + 1,
        limit := (get_pagination_params req).limit } := by
  rw [apply_manual_pagination] at h
  by_cases hsp : (get_pagination_params req).should_paginate = false
  · rw [if_pos hsp] at h
    exact absurd h (by simp)
  · rw [if_neg hsp] at h
    by_cases hlt : getPageNumber (get_pagination_params req).page
        (numPages qs.length (get_pagination_params req).limit.toNat) <
        numPages qs.length (get_pagination_params req).limit.toNat
    · have hpage1 : 1 ≤ (get_pagination_params req).page := get_pagination_params_page_ge_one req
      have h2 : (effectivePageNumber qs req : Int) = (get_pagination_params req).page := by
        rw [effectivePageNumber, getPageNumber, if_neg (by omega)]
        by_cases hgt : ((numPages qs.length (get_pagination_params req).limit.toNat : Nat) : Int)
            < (get_pagination_params req).page
        · exfalso
          rw [getPageNumber, if_neg (by omega), if_pos hgt] at hlt
          exact lt_irrefl _ hlt
        · rw [if_neg hgt]
          exact Int.toNat_of_nonneg (by omega)
      refine ⟨?_, h2, ?_⟩
      · rw [apply_manual_pagination, if_neg hsp]
        show (if getPageNumber _ _ < _ then _ else _) = _
        rw [if_pos hlt]
        rfl
      · have hb := get_pagination_params_limit_bounds req
        have hnn : ¬ ((get_pagination_params req).limit < 0) := by omega
        have hparse_page : parsePageValue (some (pyStrNat (effectivePageNumber qs req + 1))) =
            (get_pagination_params req).page + 1 := by
          rw [parsePageValue, if_neg (pyStrNat_ne_empty _), pyToInt_pyStrNat]
          show max 1 ((effectivePageNumber qs req + 1 : Nat) : Int) =
            (get_pagination_params req).page + 1
          rw [max_eq_right (by push_cast; omega)]
          push_cast
          omega
        have hparse_limit : parseLimitValue (some (pyStrInt (get_pagination_params req).limit)) =
            (get_pagination_params req).limit := by
          rw [show pyStrInt (get_pagination_params req).limit =
              pyStrNat (get_pagination_params req).limit.toNat from by rw [pyStrInt, if_neg hnn]]
          rw [parseLimitValue, if_neg (pyStrNat_ne_empty _), pyToInt_pyStrNat,
            Int.toNat_of_nonneg (by omega)]
          show max 1 (min (get_pagination_params req).limit 100) = (get_pagination_params req).limit
          rw [min_eq_left (by omega), max_eq_right (by omega)]
        conv_lhs => rw [get_pagination_params]
        simp only [qdGet_paginationQueryDict_page, qdGet_paginationQueryDict_limit,
          hparse_page, hparse_limit]
        simp
    · exfalso
      simp only [hlt, if_false] at h
      simp at h

/-- C5 demonstration request: 25 records, `page=2&limit=10&q=x`. -/
def roundtripDemoReq : Request :=
  ⟨[("page", ["2"]), ("limit", ["10"]), ("q", ["x"])], "/items", "http://h"⟩

/-- C5 witness: parsing back the page-3 URL parameters of the demo request
yields pagination on, page 3, limit 10. -/
theorem next_url_roundtrip_witness :
    get_pagination_params
      { params := paginationQueryDict roundtripDemoReq
          (get_pagination_params roundtripDemoReq).limit
          (effectivePageNumber (List.range 25) roundtripDemoReq + 1),
        path := roundtripDemoReq.path, base := roundtripDemoReq.base } =
      { should_paginate := true, page := 3, limit := 10 } := by
  have h := next_url_roundtrip (List.range 25) roundtripDemoReq (by decide)
  rw [h.2.2]
  decide

/-- C9 witness: a request carrying `?page=` (blank value). -/
theorem blank_param_counts_as_present_witness :
    (get_pagination_params ⟨[("page", [""])], "/u", ""⟩).should_paginate = true ∧
    (get_pagination_params ⟨[("page", [""])], "/u", ""⟩).page = 1 :=
  (blank_param_counts_as_present ⟨[("page", [""])], "/u", ""⟩).1 rfl

/-! ## Records, model fields and querysets (apps/common/filters.py)

A queryset row assigns a value (string or boolean) to each field name; a
model field carries what the filtering code introspects: whether
`get_internal_type()` is `BooleanField`, and the field's choice keys
(empty list = no `choices`). -/

inductive FVal
  | s (v : String)
  | b (v : Bool)
deriving DecidableEq, Repr

structure Row where
  attrs : List (String × FVal)
deriving DecidableEq, Repr

def assocGet {α : Type} (l : List (String × α)) (f : String) : Option α :=
  match l with
  | [] => none
  | (f', v) :: rest => if f' = f then some v else assocGet rest f

def Row.get (r : Row) (f : String) : Option FVal := assocGet r.attrs f

structure ModelField where
  internalIsBool : Bool
  choices : List FVal
deriving DecidableEq, Repr

structure PyModel where
  fields : List (String × ModelField)

def PyModel.getField (m : PyModel) (f : String) : Option ModelField :=
  assocGet m.fields f

/-- Python `v.strip()` on a string. -/
def pyStripStr (s : String) : String := String.mk (pyStrip s.toList)

/-- Python `[v.strip() for v in values if v and v.strip()]`. -/
def cleanedValues (raws : List String) : List String :=
  (raws.filter (fun v => v ≠ "" && pyStripStr v ≠ "")).map (fun v => pyStripStr v)

/-- Python `val.lower() in ('true', 'false', '1', '0')`. -/
def boolAccept (v : String) : Bool :=
  v.toLower = "true" || v.toLower = "false" || v.toLower = "1" || v.toLower = "0"

/-- Python `val.lower() in ('true', '1')` as the stored boolean value. -/
def boolConv (v : String) : FVal := FVal.b (v.toLower = "true" || v.toLower = "1")

/-- The tail of the `for field in filter_fields` loop body of
`apply_exact_filters`, from the boolean-field handling onward, on the
already cleaned value list: `continue` becomes returning `qs` unchanged. -/
def stepCore (mf : ModelField) (field : String) (qs : List Row)
    (values : List String) : List Row :=
  let afterBool : Option (List FVal) :=
    if mf.internalIsBool then
      let conv := (values.filter boolAccept).map boolConv
      if conv.isEmpty then none else some conv
    else some (values.map FVal.s)
  match afterBool with
  | none => qs
  | some vals =>
    let afterChoices : Option (List FVal) :=
      if mf.choices.isEmpty then some vals
      else
        let vs := vals.filter (fun v => mf.choices.contains v)
        if vs.isEmpty then none else some vs
    match afterChoices with
    | none => qs
    | some vs =>
      match vs with
      | [v] => qs.filter (fun r => r.get field == some v)
      | _ => qs.filter (fun r =>
          match r.get field with
          | some x => vs.contains x
          | none => false)

/-- One iteration of the `for field in filter_fields` loop of
`apply_exact_filters`. -/
def filterFieldStep (model : PyModel) (req : Request) (field : String)
    (qs : List Row) : List Row :=
  let rawValues := qdGetList req.params field
  if rawValues.isEmpty then qs
  else
    let values := cleanedValues rawValues
    if values.isEmpty then qs
    else
      match model.getField field with
      | none => qs
      | some mf => stepCore mf field qs values

def apply_exact_filters (model : PyModel) (req : Request) (qs : List Row)
    (filter_fields : List String) : List Row :=
  filter_fields.foldl (fun acc f => filterFieldStep model req f acc) qs

/-! ## Sorting (apps/common/filters.py, `apply_sorting`)

`queryset.order_by(key)` is modelled as Django behaves on a plain model
field: it strips at most ONE leading `-` from the key and raises
`FieldError` when the remainder is not a model field; on success it sorts
by that field, descending when the dash was present.  The embedding keeps
the error kind so that the `except (ValueError, TypeError)` clause of the
source can be modelled exactly. -/

def FVal.le : FVal → FVal → Bool
  | .b x, .b y => !x || y
  | .b _, .s _ => true
  | .s _, .b _ => false
  | .s x, .s y => decide (x ≤ y)

def optValLe (a b : Option FVal) : Bool :=
  match a, b with
  | none, _ => true
  | some _, none => false
  | some x, some y => FVal.le x y

def insertSorted (le : Row → Row → Bool) (x : Row) : List Row → List Row
  | [] => [x]
  | y :: r => if le x y then x :: y :: r else y :: insertSorted le x r

def sortRows (qs : List Row) (f : String) (desc : Bool) : List Row :=
  let le := fun r1 r2 =>
    if desc then optValLe (r2.get f) (r1.get f) else optValLe (r1.get f) (r2.get f)
  qs.foldr (insertSorted le) []

inductive PyErr
  | valueError
  | typeError
  | fieldError
deriving DecidableEq, Repr

def stripDashOnce (s : String) : String × Bool :=
  match s.toList with
  | '-' :: rest => (String.mk rest, true)
  | _ => (s, false)

def order_by (model : PyModel) (qs : List Row) (key : String) :
    Except PyErr (List Row) :=
  let core := stripDashOnce key
  if (model.getField core.1).isSome then Except.ok (sortRows qs core.1 core.2)
  else Except.error PyErr.fieldError

/-- Python `key.lstrip('-')`: strips EVERY leading dash. -/
def lstripDashes (s : String) : String :=
  String.mk (s.toList.dropWhile (fun c => c = '-'))

def apply_sorting (model : PyModel) (req : Request) (qs : List Row)
    (allowed_fields : List String) (default : String) : Except PyErr (List Row) :=
  let sort_by := qdGetD req.params "sort_by" default
  let field_name := lstripDashes sort_by
  if allowed_fields.contains field_name then
    match order_by model qs sort_by with
    | Except.ok r => Except.ok r
    | Except.error e =>
      if e = PyErr.valueError ∨ e = PyErr.typeError then order_by model qs default
      else Except.error e
  else order_by model qs default

/-! ### Lemmas about `apply_exact_filters` -/

theorem cleanedValues_of_clean (raws : List String)
    (hclean : ∀ v ∈ raws, pyStripStr v = v ∧ v ≠ "") :
    cleanedValues raws = raws := by
  rw [cleanedValues]
  have h1 : raws.filter (fun v => v ≠ "" && pyStripStr v ≠ "") = raws := by
    rw [List.filter_eq_self]
    intro v hv
    rcases hclean v hv with ⟨h1, h2⟩
    simp [h1, h2]
  rw [h1]
  have h2 : raws.map (fun v => pyStripStr v) = raws.map id :=
    List.map_congr_left (fun v hv => (hclean v hv).1)
  rw [h2, List.map_id]

theorem mem_filter_eqval (qs : List Row) (f : String) (v : FVal) (r : Row) :
    r ∈ qs.filter (fun r => r.get f == some v) ↔ r ∈ qs ∧ r.get f = some v := by
  rw [List.mem_filter]
  simp

theorem mem_filter_inlist (qs : List Row) (f : String) (vs : List FVal) (r : Row) :
    r ∈ qs.filter (fun r =>
      match r.get f with
      | some x => vs.contains x
      | none => false) ↔ r ∈ qs ∧ ∃ v ∈ vs, r.get f = some v := by
  rw [List.mem_filter]
  rcases hr : r.get f with _ | x
  · simp [hr]
  · simp [hr, eq_comm]

theorem filter_map_fvals (values : List String) (p : FVal → Bool) :
    (values.map FVal.s).filter p = (values.filter (fun v => p (FVal.s v))).map FVal.s := by
  induction values with
  | nil => rfl
  | cons a t ih => by_cases h : p (FVal.s a) = true <;> simp [List.filter_cons, h, ih]

theorem apply_exact_filters_single (model : PyModel) (req : Request) (f : String)
    (qs : List Row) :
    apply_exact_filters model req qs [f] = filterFieldStep model req f qs := rfl

theorem filterFieldStep_eq_core (model : PyModel) (req : Request) (f : String)
    (mf : ModelField) (qs : List Row) (raws : List String)
    (hmf : model.getField f = some mf) (hraws : qdGetList req.params f = raws)
    (hclean : ∀ v ∈ raws, pyStripStr v = v ∧ v ≠ "") (hne : raws ≠ []) :
    filterFieldStep model req f qs = stepCore mf f qs raws := by
  have hie : raws.isEmpty = false := by
    rcases raws with _ | ⟨a, t⟩
    · exact absurd rfl hne
    · rfl
  rw [filterFieldStep]
  simp [hraws, cleanedValues_of_clean raws hclean, hie, hmf]

theorem filterFieldStep_empty (model : PyModel) (req : Request) (f : String)
    (qs : List Row) (hraws : qdGetList req.params f = []) :
    filterFieldStep model req f qs = qs := by
  rw [filterFieldStep]
  simp [hraws]

theorem stepCore_bool_skip (mf : ModelField) (f : String) (qs : List Row)
    (values : List String) (hb : mf.internalIsBool = true)
    (hsurv : (values.filter boolAccept).isEmpty = true) :
    stepCore mf f qs values = qs := by
  have h0 : values.filter boolAccept = [] := by
    rcases h : values.filter boolAccept with _ | ⟨a, t⟩
    · rfl
    · rw [h] at hsurv
      exact absurd hsurv (by simp)
  rw [stepCore]
  simp [hb, h0]

theorem stepCore_bool_apply (mf : ModelField) (f : String) (qs : List Row)
    (values : List String) (hb : mf.internalIsBool = true) (hch : mf.choices = [])
    (hsurv : (values.filter boolAccept).isEmpty = false) :
    ∀ r, r ∈ stepCore mf f qs values ↔
      r ∈ qs ∧ ∃ v ∈ (values.filter boolAccept).map boolConv, r.get f = some v := by
  intro r
  rcases h : (values.filter boolAccept).map boolConv with _ | ⟨v, tail⟩
  · exfalso
    rcases hf : values.filter boolAccept with _ | ⟨a, t⟩
    · rw [hf] at hsurv
      exact absurd hsurv (by simp)
    · rw [hf] at h
      exact List.noConfusion h
  · rw [stepCore]
    simp only [hb, if_true, h, hch]
    rcases tail with _ | ⟨w, t2⟩
    · show r ∈ qs.filter (fun r => r.get f == some v) ↔ _
      rw [mem_filter_eqval]
      simp
    · show r ∈ qs.filter (fun r =>
          match r.get f with
          | some x => (v :: w :: t2).contains x
          | none => false) ↔ _
      rw [mem_filter_inlist]

theorem stepCore_choice_skip (mf : ModelField) (f : String) (qs : List Row)
    (values : List String) (hb : mf.internalIsBool = false) (hch : mf.choices ≠ [])
    (hsurv : (values.filter (fun v => mf.choices.contains (FVal.s v))).isEmpty = true) :
    stepCore mf f qs values = qs := by
  have hce : mf.choices.isEmpty = false := by
    rcases hc : mf.choices with _ | ⟨a, t⟩
    · exact absurd hc hch
    · rfl
  have h0 : values.filter (fun v => mf.choices.contains (FVal.s v)) = [] := by
    rcases h : values.filter (fun v => mf.choices.contains (FVal.s v)) with _ | ⟨a, t⟩
    · rfl
    · rw [h] at hsurv
      exact absurd hsurv (by simp)
  have hall : ∀ a ∈ values, FVal.s a ∉ mf.choices := by
    intro a ha
    have := List.filter_eq_nil_iff.mp h0 a ha
    simpa using this
  rw [stepCore]
  simp only [hb, Bool.false_eq_true, if_false]
  simp [hce]
  rw [if_pos hall]

theorem stepCore_choice_apply (mf : ModelField) (f : String) (qs : List Row)
    (values : List String) (hb : mf.internalIsBool = false) (hch : mf.choices ≠ [])
    (hsurv : (values.filter (fun v => mf.choices.contains (FVal.s v))).isEmpty = false) :
    ∀ r, r ∈ stepCore mf f qs values ↔
      r ∈ qs ∧ ∃ v ∈ values.filter (fun v => mf.choices.contains (FVal.s v)),
        r.get f = some (FVal.s v) := by
  intro r
  have hce : mf.choices.isEmpty = false := by
    rcases hc : mf.choices with _ | ⟨a, t⟩
    · exact absurd hc hch
    · rfl
  rcases h : values.filter (fun v => mf.choices.contains (FVal.s v)) with _ | ⟨v, tail⟩
  · rw [h] at hsurv
    exact absurd hsurv (by simp)
  · rw [stepCore]
    simp only [hb, if_false, Bool.false_eq_true, hce, filter_map_fvals, h, List.map_cons]
    rcases tail with _ | ⟨w, t2⟩
    · show r ∈ qs.filter (fun r => r.get f == some (FVal.s v)) ↔ _
      rw [mem_filter_eqval]
      simp
    · show r ∈ qs.filter (fun r =>
          match r.get f with
          | some x => (FVal.s v :: FVal.s w :: List.map FVal.s t2).contains x
          | none => false) ↔ _
      rw [mem_filter_inlist]
      simp

/-- C7: for a boolean-typed filter field only the values in
`{true, false, 1, 0}` (case-insensitive) are kept and the filter is
skipped when none survives; for a choice field only valid choices are
kept and the filter is skipped when none survives; one surviving value is
an exact match, several are membership, and two surviving values select
exactly the union of the rows matching either value. -/
theorem apply_exact_filters_value_validation (model : PyModel) (req : Request)
    (f : String) (mf : ModelField) (qs : List Row) (raws : List String)
    (hmf : model.getField f = some mf) (hraws : qdGetList req.params f = raws)
    (hclean : ∀ v ∈ raws, pyStripStr v = v ∧ v ≠ "") :
    (mf.internalIsBool = true → mf.choices = [] →
      (((raws.filter boolAccept).isEmpty = true →
          apply_exact_filters model req qs [f] = qs) ∧
        ((raws.filter boolAccept).isEmpty = false → ∀ r,
          r ∈ apply_exact_filters model req qs [f] ↔
            r ∈ qs ∧ ∃ v ∈ (raws.filter boolAccept).map boolConv, r.get f = some v))) ∧
    (mf.internalIsBool = false → mf.choices ≠ [] →
      (((raws.filter (fun v => mf.choices.contains (FVal.s v))).isEmpty = true →
          apply_exact_filters model req qs [f] = qs) ∧
        ((raws.filter (fun v => mf.choices.contains (FVal.s v))).isEmpty = false → ∀ r,
          r ∈ apply_exact_filters model req qs [f] ↔
            r ∈ qs ∧ ∃ v ∈ raws.filter (fun v => mf.choices.contains (FVal.s v)),
              r.get f = some (FVal.s v)))) ∧
    (mf.internalIsBool = false → mf.choices ≠ [] → ∀ a b,
      raws.filter (fun v => mf.choices.contains (FVal.s v)) = [a, b] → ∀ r,
        r ∈ apply_exact_filters model req qs [f] ↔
          (r ∈ qs ∧ r.get f = some (FVal.s a)) ∨
          (r ∈ qs ∧ r.get f = some (FVal.s b))) := by
  rw [apply_exact_filters_single]
  by_cases hr0 : raws = []
  · have hstep : filterFieldStep model req f qs = qs :=
      filterFieldStep_empty model req f qs (hr0 ▸ hraws)
    refine ⟨fun hb hch => ⟨fun _ => hstep, fun hsurv => ?_⟩,
      fun hb hch => ⟨fun _ => hstep, fun hsurv => ?_⟩,
      fun hb hch a b hab => ?_⟩
    · exfalso
      rw [hr0] at hsurv
      exact absurd hsurv (by simp)
    · exfalso
      rw [hr0] at hsurv
      exact absurd hsurv (by simp)
    · exfalso
      rw [hr0] at hab
      exact List.noConfusion hab
  · have hcore : filterFieldStep model req f qs = stepCore mf f qs raws :=
      filterFieldStep_eq_core model req f mf qs raws hmf hraws hclean hr0
    rw [hcore]
    refine ⟨fun hb hch => ⟨stepCore_bool_skip mf f qs raws hb,
        stepCore_bool_apply mf f qs raws hb hch⟩,
      fun hb hch => ⟨stepCore_choice_skip mf f qs raws hb hch,
        stepCore_choice_apply mf f qs raws hb hch⟩,
      fun hb hch a b hab r => ?_⟩
    have hsurv : (raws.filter (fun v => mf.choices.contains (FVal.s v))).isEmpty = false := by
      rw [hab]
      rfl
    rw [stepCore_choice_apply mf f qs raws hb hch hsurv r, hab]
    simp only [List.mem_cons, List.mem_singleton, List.not_mem_nil, or_false]
    constructor
    · rintro ⟨hq, v, (rfl | rfl), hv⟩
      · exact Or.inl ⟨hq, hv⟩
      · exact Or.inr ⟨hq, hv⟩
    · rintro (⟨hq, hv⟩ | ⟨hq, hv⟩)
      · exact ⟨hq, a, Or.inl rfl, hv⟩
      · exact ⟨hq, b, Or.inr rfl, hv⟩

/-- C7 demonstration data: a `status` choice field with choices
`active`/`inactive`, request `?status=active&status=inactive&status=bogus`,
and three rows. -/
def filterDemoModel : PyModel := ⟨[("status", ⟨false, [FVal.s "active", FVal.s "inactive"]⟩)]⟩

def filterDemoReq : Request := ⟨[("status", ["active", "inactive", "bogus"])], "/t", ""⟩

def filterDemoRows : List Row :=
  [⟨[("status", FVal.s "active")]⟩, ⟨[("status", FVal.s "inactive")]⟩,
   ⟨[("status", FVal.s "archived")]⟩]

/-- C7 witness: the invalid value `bogus` is dropped, and the two valid
values select the union — the `active` row is kept, the `archived` row is
dropped. -/
theorem apply_exact_filters_value_validation_witness :
    (⟨[("status", FVal.s "active")]⟩ : Row) ∈
      apply_exact_filters filterDemoModel filterDemoReq filterDemoRows ["status"] ∧
    (⟨[("status", FVal.s "archived")]⟩ : Row) ∉
      apply_exact_filters filterDemoModel filterDemoReq filterDemoRows ["status"] := by
  have h := apply_exact_filters_value_validation filterDemoModel filterDemoReq "status"
    ⟨false, [FVal.s "active", FVal.s "inactive"]⟩ filterDemoRows
    ["active", "inactive", "bogus"] rfl rfl (by decide)
  have hu := h.2.2 rfl (by decide) "active" "inactive" (by decide)
  constructor
  · exact (hu ⟨[("status", FVal.s "active")]⟩).mpr (Or.inl ⟨by decide, by decide⟩)
  · intro hmem
    have := (hu ⟨[("status", FVal.s "archived")]⟩).mp hmem
    rcases this with ⟨_, hv⟩ | ⟨_, hv⟩ <;> exact absurd hv (by decide)

/-- A model with a single sortable text field `created_at`. -/
def sortDemoModel : PyModel := ⟨[("created_at", ⟨false, []⟩)]⟩

/-- A request carrying `?sort_by=--created_at`. -/
def sortDemoReq : Request := ⟨[("sort_by", ["--created_at"])], "/t", ""⟩

/-- C6: refuted as stated — the sort key `--created_at` passes the
allow-list check (because `lstrip('-')` removes every leading dash), the
code then calls `order_by('--created_at')`, Django raises `FieldError`
(only one dash is treated as the descending marker), and the
`except (ValueError, TypeError)` clause does not catch it, so the error
propagates to the caller instead of falling back to the default ordering;
the default ordering itself would have succeeded. -/
theorem apply_sorting_propagates_field_error :
    apply_sorting sortDemoModel sortDemoReq [] ["created_at"] "-created_at" =
      Except.error PyErr.fieldError ∧
    lstripDashes "--created_at" = "created_at" ∧
    order_by sortDemoModel [] "-created_at" = Except.ok [] :=
  ⟨rfl, rfl, rfl⟩

/-! ## Audit subsystem (apps/common/audit/services.py, models.py, constants.py)

`AuditLog` keeps the fields of the model; `changed_fields` is represented
as an `Option` of a key/value map so that the difference between a stored
empty map and a stored null is expressible.  `created_at` is reduced to
its calendar date, the only component the filters compare. -/

structure PyDate where
  y : Nat
  m : Nat
  d : Nat
deriving DecidableEq, Repr

/-- Calendar order on dates (`created_at__date__lte`-style comparison). -/
def PyDate.le (a b : PyDate) : Bool :=
  decide (a.y < b.y ∨ (a.y = b.y ∧ (a.m < b.m ∨ (a.m = b.m ∧ a.d ≤ b.d))))

structure AuditUser where
  uid : Int
  full_name : String
  role : String
deriving DecidableEq, Repr

structure AuditLog where
  action : String
  action_details : String
  performed_by : Option AuditUser
  performed_by_role : String
  module : String
  status : String
  from_status : String
  to_status : String
  changed_fields : Option (List (String × String))
  related_object_id : Option Int
  created_at : PyDate
deriving DecidableEq, Repr

/-- Dictionary `ACTION_DESCRIPTIONS` of audit/constants.py. -/
def ACTION_DESCRIPTIONS : List (String × String) :=
  [("user_created", "User Created"),
   ("user_updated", "User Updated"),
   ("user_deleted", "User Deleted")]

/-- Whether `needle` occurs as a contiguous run inside `hay`. -/
def substrOccurs (hay needle : List Char) : Bool :=
  needle.isPrefixOf hay ||
    (match hay with
     | [] => false
     | _ :: t => substrOccurs t needle)

/-- Python `str.lower()` / SQL `LOWER`, character by character. -/
def lowerStr (s : String) : String := String.mk (s.toList.map Char.toLower)

/-- Django `field__icontains=t`: case-insensitive substring test. -/
def icontains (hay needle : String) : Bool :=
  substrOccurs (lowerStr hay).toList (lowerStr needle).toList

/-- Split a character list at every `-`. -/
def splitDash (l : List Char) : List (List Char) :=
  match l with
  | [] => [[]]
  | c :: r =>
    match splitDash r with
    | [] => [[c]]
    | h :: t => if c = '-' then [] :: h :: t else (c :: h) :: t

def isLeap (y : Nat) : Bool := decide ((y % 4 = 0 ∧ y % 100 ≠ 0) ∨ y % 400 = 0)

def daysInMonth (y m : Nat) : Nat :=
  if m = 2 then (if isLeap y then 29 else 28)
  else if m = 4 ∨ m = 6 ∨ m = 9 ∨ m = 11 then 30 else 31

/-- Python `datetime.strptime(s, '%Y-%m-%d')`: exactly three dash-separated
groups of digits — a 4-digit year, a 1-2 digit month in 1..12 and a
1-2 digit day valid for that month; anything else raises `ValueError`
(modelled as `none`). -/
def pyStrptimeDate (s : String) : Option PyDate :=
  match splitDash s.toList with
  | [yl, ml, dl] =>
    if yl.length = 4 && yl.all isDig &&
        (ml.length = 1 || ml.length = 2) && ml.all isDig &&
        (dl.length = 1 || dl.length = 2) && dl.all isDig then
      let y := readDigits yl
      let m := readDigits ml
      let d := readDigits dl
      if 1 ≤ m && m ≤ 12 && 1 ≤ d && d ≤ daysInMonth y m then some ⟨y, m, d⟩
      else none
    else none
  | _ => none

/-- Function `log_audit_event` of audit/services.py.  `user_role` is the Python
argument with `''` standing for the omitted/`None` default (both are falsy
and the function only tests truthiness); `now` stands for the database's
`created_at` timestamp. -/
def log_audit_event (action : String) (module : String) (user : Option AuditUser)
    (user_role : String) (status : String) (action_details : String)
    (from_status : String) (to_status : String)
    (changed_fields : Option (List (String × String)))
    (related_object_id : Option Int) (now : PyDate) : AuditLog :=
  let role :=
    if user.isSome && user_role = "" then
      match user with
      | some u => u.role
      | none => ""
    else user_role
  { action := action, action_details := action_details, performed_by := user,
    performed_by_role := role, module := module, status := status,
    from_status := from_status, to_status := to_status,
    changed_fields := some (match changed_fields with
      | none => []
      | some d => if d.isEmpty then [] else d),
    related_object_id := related_object_id, created_at := now }

/-- Function `apply_audit_log_filters` of audit/services.py. -/
def apply_audit_log_filters (req : Request) (qs : List AuditLog) : List AuditLog :=
  let qs1 :=
    match qdGet req.params "search" with
    | some t =>
      if t ≠ "" then
        qs.filter (fun lg =>
          icontains lg.action t ||
            (match lg.performed_by with
             | some u => icontains u.full_name t
             | none => false))
      else qs
    | none => qs
  let qs2 :=
    match qdGet req.params "user" with
    | some uidStr =>
      if uidStr ≠ "" then
        match pyToInt uidStr with
        | some n => qs1.filter (fun lg =>
            match lg.performed_by with
            | some u => u.uid == n
            | none => false)
        | none => qs1
      else qs1
    | none => qs1
  let qs3 :=
    match qdGet req.params "start_date" with
    | some sd =>
      if sd ≠ "" then
        match pyStrptimeDate sd with
        | some dt => qs2.filter (fun lg => PyDate.le dt lg.created_at)
        | none => qs2
      else qs2
    | none => qs2
  match qdGet req.params "end_date" with
  | some ed =>
    if ed ≠ "" then
      match pyStrptimeDate ed with
      | some dt => qs3.filter (fun lg => PyDate.le lg.created_at dt)
      | none => qs3
    else qs3
  | none => qs3

/-- An audit event whose action key is `user_created`, with no actor. -/
def auditDemoLog : AuditLog :=
  { action := "user_created", action_details := "", performed_by := none,
    performed_by_role := "", module := "users", status := "success",
    from_status := "", to_status := "", changed_fields := some [],
    related_object_id := none, created_at := ⟨2024, 1, 1⟩ }

/-- C8 counterexample: the search term `User C` occurs in the human-readable
description (`User Created`) of the event's action, yet the read-side
filter drops the event — the code searches only the raw action key and the
actor's full name, never the action description. -/
theorem audit_search_misses_description :
    apply_audit_log_filters ⟨[("search", ["User C"])], "/a", ""⟩ [auditDemoLog] = [] ∧
    assocGet ACTION_DESCRIPTIONS auditDemoLog.action = some "User Created" ∧
    icontains "User Created" "User C" = true := by
  refine ⟨by decide, by decide, by decide⟩

/-- C8 (amended): for a non-empty search term the filter keeps exactly the
events whose raw action key or actor full name case-insensitively contains
the term (the action description is not consulted); `start_date`/`end_date`
filter inclusively on calendar-day boundaries, and a malformed date string
leaves the queryset unfiltered for that bound. -/
theorem apply_audit_log_filters_spec (req : Request) (qs : List AuditLog) :
    (∀ t, qdGet req.params "search" = some t → t ≠ "" →
      qdGet req.params "user" = none →
      qdGet req.params "start_date" = none → qdGet req.params "end_date" = none →
      ∀ lg, lg ∈ apply_audit_log_filters req qs ↔
        lg ∈ qs ∧ (icontains lg.action t = true ∨
          ∃ u, lg.performed_by = some u ∧ icontains u.full_name t = true)) ∧
    (∀ sd d, qdGet req.params "search" = none → qdGet req.params "user" = none →
      qdGet req.params "start_date" = some sd → pyStrptimeDate sd = some d →
      qdGet req.params "end_date" = none →
      ∀ lg, lg ∈ apply_audit_log_filters req qs ↔
        lg ∈ qs ∧ PyDate.le d lg.created_at = true) ∧
    (∀ ed d, qdGet req.params "search" = none → qdGet req.params "user" = none →
      qdGet req.params "start_date" = none → qdGet req.params "end_date" = some ed →
      pyStrptimeDate ed = some d →
      ∀ lg, lg ∈ apply_audit_log_filters req qs ↔
        lg ∈ qs ∧ PyDate.le lg.created_at d = true) ∧
    (∀ sd, qdGet req.params "search" = none → qdGet req.params "user" = none →
      qdGet req.params "start_date" = some sd → pyStrptimeDate sd = none →
      qdGet req.params "end_date" = none →
      apply_audit_log_filters req qs = qs) ∧
    (∀ ed, qdGet req.params "search" = none → qdGet req.params "user" = none →
      qdGet req.params "start_date" = none → qdGet req.params "end_date" = some ed →
      pyStrptimeDate ed = none →
      apply_audit_log_filters req qs = qs) := by
  refine ⟨?_, ?_, ?_, ?_, ?_⟩
  · intro t hs ht hu hsd hed lg
    rw [apply_audit_log_filters]
    simp only [hs, hu, hsd, hed]
    rw [if_pos ht, List.mem_filter]
    apply and_congr_right
    intro _
    rcases hp : lg.performed_by with _ | u
    · simp [hp]
    · simp [hp]
  · intro sd d hs hu hsd hd hed lg
    have hne : sd ≠ "" := by
      rintro rfl
      rw [show pyStrptimeDate "" = none from rfl] at hd
      exact Option.noConfusion hd
    rw [apply_audit_log_filters]
    simp only [hs, hu, hsd, hed]
    rw [if_pos hne]
    simp only [hd]
    rw [List.mem_filter]
  · intro ed d hs hu hsd hed hd lg
    have hne : ed ≠ "" := by
      rintro rfl
      rw [show pyStrptimeDate "" = none from rfl] at hd
      exact Option.noConfusion hd
    rw [apply_audit_log_filters]
    simp only [hs, hu, hsd, hed]
    rw [if_pos hne]
    simp only [hd]
    rw [List.mem_filter]
  · intro sd hs hu hsd hd hed
    rw [apply_audit_log_filters]
    simp only [hs, hu, hsd, hed]
    by_cases hne : sd = ""
    · simp [hne]
    · rw [if_pos hne]
      simp only [hd]
  · intro ed hs hu hsd hed hd
    rw [apply_audit_log_filters]
    simp only [hs, hu, hsd, hed]
    by_cases hne : ed = ""
    · simp [hne]
    · rw [if_pos hne]
      simp only [hd]

/-- An audit event performed by the user Alice Smith. -/
def auditDemoLog2 : AuditLog :=
  { action := "user_updated", action_details := "", performed_by :=
      some ⟨7, "Alice Smith", "admin"⟩,
    performed_by_role := "admin", module := "users", status := "success",
    from_status := "", to_status := "", changed_fields := some [],
    related_object_id := none, created_at := ⟨2024, 2, 3⟩ }

/-- C8 witness: searching for `alice` keeps Alice's event and drops the
actor-less `user_created` event. -/
theorem apply_audit_log_filters_spec_witness :
    auditDemoLog2 ∈ apply_audit_log_filters ⟨[("search", ["alice"])], "/a", ""⟩
      [auditDemoLog, auditDemoLog2] ∧
    auditDemoLog ∉ apply_audit_log_filters ⟨[("search", ["alice"])], "/a", ""⟩
      [auditDemoLog, auditDemoLog2] := by
  have h := (apply_audit_log_filters_spec ⟨[("search", ["alice"])], "/a", ""⟩
    [auditDemoLog, auditDemoLog2]).1 "alice" rfl (by decide) rfl rfl rfl
  constructor
  · exact (h auditDemoLog2).mpr
      ⟨by decide, Or.inr ⟨⟨7, "Alice Smith", "admin"⟩, by decide, by decide⟩⟩
  · intro hmem
    rcases (h auditDemoLog).mp hmem with ⟨_, hc | ⟨u, hu, _⟩⟩
    · exact absurd hc (by decide)
    · simp [auditDemoLog] at hu

/-- C10: every audit event written by the recorder stores a non-null
changed-fields map; an omitted/`None`/falsy `changed_fields` argument is
stored as the empty map rather than null. -/
theorem log_audit_event_changed_fields_nonnull (action module_ : String)
    (user : Option AuditUser) (user_role status action_details from_status to_status : String)
    (changed_fields : Option (List (String × String)))
    (related_object_id : Option Int) (now : PyDate) :
    (log_audit_event action module_ user user_role status action_details from_status
      to_status changed_fields related_object_id now).changed_fields ≠ none ∧
    ((changed_fields = none ∨ changed_fields = some []) →
      (log_audit_event action module_ user user_role status action_details from_status
        to_status changed_fields related_object_id now).changed_fields = some []) := by
  constructor
  · unfold log_audit_event
    simp
  · rintro (rfl | rfl) <;> rfl

/-- C10 witness: recording an event with the `changed_fields` argument
omitted (`None`) stores the empty map. -/
theorem log_audit_event_changed_fields_nonnull_witness :
    (log_audit_event "user_created" "users" none "" "success" "" "" "" none none
      ⟨2024, 1, 1⟩).changed_fields = some [] :=
  (log_audit_event_changed_fields_nonnull "user_created" "users" none "" "success" ""
    "" "" none none ⟨2024, 1, 1⟩).2 (Or.inl rfl)

end Boiler
